import Mathlib

/-!
Shallow embedding of the `local-go` redirector service (src/main.py).

The service keeps a process-wide dictionary `redirect_map : Dict[str, str]`
and an append-only text file `config`.  Three request handlers front the
store: `go` (resolve a shortcut to a 302 redirect), `show_config` (dump the
mapping as JSON, reachable only through the literal route `/go/👀`), and
`save` (validate query parameters, update the dictionary, append one
`key:value\n` line to the file).  On startup `load_config` replays the file
line by line with `line.strip().split(':', 1)`, skipping lines that raise
`ValueError` (no `:` present).

File contents are modelled as `List Char`; the Python dictionary is modelled
as an insertion-ordered association list with unique keys, matching CPython
dict semantics (overwrite keeps the key position, fresh keys append).
-/

/-- HTTP-level outcome of a request handler, as produced by the Flask layer:
either a redirect with a Location target, or a plain body with a status code. -/
inductive Response where
  | redirectTo (code : Nat) (location : String)
  | content (code : Nat) (body : String)
deriving DecidableEq

/-- The in-memory `redirect_map : Dict[str, str]`, as an insertion-ordered
association list with unique keys (CPython dict semantics). -/
abbrev RedirectMap := List (String × String)

/-- `d[k] = v` on a Python dict: overwrite the entry in place if the key is
present (keeping its position), otherwise append the new pair at the end.
Every map in this development is built from `[]` by `dictSet`, so keys are
unique and "first occurrence" coincides with "the occurrence". -/
def dictSet : RedirectMap → String → String → RedirectMap
  | [], k, v => [(k, v)]
  | p :: rest, k, v =>
    if p.1 = k then (k, v) :: rest else p :: dictSet rest k v

/-- Python `d.get(k)` / `k in d` combined: the value stored under `k`, if any. -/
def dictGet : RedirectMap → String → Option String
  | [], _ => none
  | p :: rest, k => if p.1 = k then some p.2 else dictGet rest k

/-- The whitespace set stripped by Python `str.strip()`: exactly the code
points CPython treats as whitespace — tab through carriage return (9-13),
the ASCII file/group/record/unit separators and space (28-32), NEL (133),
no-break space (160), Ogham space mark (5760), the Unicode spaces
8192-8202, the line and paragraph separators 8232-8233, narrow no-break
space (8239), medium mathematical space (8287) and ideographic space
(12288). -/
def isPySpace (c : Char) : Bool :=
  (9 ≤ c.toNat && c.toNat ≤ 13) || (28 ≤ c.toNat && c.toNat ≤ 32) ||
  c.toNat = 133 || c.toNat = 160 || c.toNat = 5760 ||
  (8192 ≤ c.toNat && c.toNat ≤ 8202) || c.toNat = 8232 || c.toNat = 8233 ||
  c.toNat = 8239 || c.toNat = 8287 || c.toNat = 12288

/-- Python `line.strip()`: drop leading and trailing whitespace. -/
def pyStrip (cs : List Char) : List Char :=
  (((cs.dropWhile isPySpace).reverse).dropWhile isPySpace).reverse

/-- Python `s.split(':', 1)` restricted to the two-piece case: `some (key, value)`
when the line contains a `:` (splitting at the first one, so the value may
itself contain `:`), `none` when it does not (the `ValueError` case of the
two-variable unpacking in `load_config`). -/
def splitFirstColon : List Char → Option (List Char × List Char)
  | [] => none
  | c :: rest =>
    if c = ':' then some ([], rest)
    else (splitFirstColon rest).map (fun p => (c :: p.1, p.2))

/-- Parse one config line as `load_config` does:
`shortcut, url = line.strip().split(':', 1)`. -/
def parseLine (line : List Char) : Option (String × String) :=
  match splitFirstColon (pyStrip line) with
  | some kv => some (⟨kv.1⟩, ⟨kv.2⟩)
  | none => none

/-- Universal-newline translation performed by Python text-mode reading:
`\r\n` and a lone `\r` both become `\n`. -/
def universalNewlines : List Char → List Char
  | [] => []
  | [c] => if c = '\r' then ['\n'] else [c]
  | c :: c2 :: rest =>
    if c = '\r' then
      if c2 = '\n' then '\n' :: universalNewlines rest
      else '\n' :: universalNewlines (c2 :: rest)
    else c :: universalNewlines (c2 :: rest)

/-- Split a character stream at every `'\n'`; `"a\nb"` gives `["a", "b"]`,
a trailing `'\n'` yields a final empty chunk (which `parseLine` then skips). -/
def splitOnNl : List Char → List (List Char)
  | [] => [[]]
  | c :: rest =>
    if c = '\n' then [] :: splitOnNl rest
    else
      match splitOnNl rest with
      | [] => [[c]]
      | l :: ls => (c :: l) :: ls

/-- The lines `for line in config` iterates over: universal-newline
translation followed by splitting at `'\n'`. -/
def pyLines (contents : List Char) : List (List Char) :=
  splitOnNl (universalNewlines contents)

/-- One iteration of the `load_config` loop: parse the line and store the
pair, or skip the line silently when unpacking raises `ValueError`. -/
def stepLine (d : RedirectMap) (line : List Char) : RedirectMap :=
  match parseLine line with
  | some kv => dictSet d kv.1 kv.2
  | none => d

/-- `load_config` (the file-exists branch): replay every line of the config
file, in file order, into the given starting map. -/
def load_config (d : RedirectMap) (contents : List Char) : RedirectMap :=
  (pyLines contents).foldl stepLine d

/-- The body returned by the `not_found` error handler registered with
`@app.errorhandler(404)`: a bare string. -/
def not_found : String := "URL not found"

/-- The `go` view: `/go/<string:path>` redirects with 302 to `https://` plus
the stored value when the path is in `redirect_map`, else `abort(404)`.
The raised `NotFound` is given to the registered handler, but `not_found`
returns a bare string, and Flask finalizes a bare-string handler return with
the DEFAULT status 200 — the exception's 404 is not attached.  So the served
response on a miss is 200 with body "URL not found". -/
def go (m : RedirectMap) (path : String) : Response :=
  match dictGet m path with
  | some url => Response.redirectTo 302 ("https://" ++ url)
  | none => Response.content 200 not_found

/-- `json.dumps` lowercase hex digit. -/
def hexDigit (n : Nat) : Char :=
  if n < 10 then Char.ofNat (48 + n) else Char.ofNat (87 + n)

/-- Four-digit hex rendering used by `\uXXXX` escapes. -/
def hex4 (n : Nat) : List Char :=
  [hexDigit (n / 4096 % 16), hexDigit (n / 256 % 16), hexDigit (n / 16 % 16), hexDigit (n % 16)]

/-- Escaping of one character by `json.dumps` with its default
`ensure_ascii=True`: short escapes for the usual control characters, `\uXXXX`
(with surrogate pairs beyond the BMP) for everything outside printable ASCII. -/
def jsonEscapeChar (c : Char) : List Char :=
  if c = '"' then ['\\', '"']
  else if c = '\\' then ['\\', '\\']
  else if c = '\n' then ['\\', 'n']
  else if c = '\t' then ['\\', 't']
  else if c = '\r' then ['\\', 'r']
  else if c = '\x08' then ['\\', 'b']
  else if c = '\x0c' then ['\\', 'f']
  else if 32 ≤ c.toNat && c.toNat ≤ 126 then [c]
  else if c.toNat ≤ 65535 then '\\' :: 'u' :: hex4 c.toNat
  else
    ('\\' :: 'u' :: hex4 (55296 + (c.toNat - 65536) / 1024)) ++
      ('\\' :: 'u' :: hex4 (56320 + (c.toNat - 65536) % 1024))

/-- `json.dumps` escaping of a whole string. -/
def jsonEscape (s : String) : String :=
  ⟨(s.toList.map jsonEscapeChar).flatten⟩

/-- `json.dumps(redirect_map, indent=2)`: `\x7b\x7d` for the empty dict,
otherwise one `"key": "value"` line per entry, two-space indented,
comma-separated, in dict (insertion) order. -/
def jsonDumps (d : RedirectMap) : String :=
  if d.isEmpty then "\x7b\x7d"
  else
    "\x7b\n" ++
      String.intercalate ",\n"
        (d.map (fun p => "  \"" ++ jsonEscape p.1 ++ "\": \"" ++ jsonEscape p.2 ++ "\"")) ++
      "\n\x7d"

/-- The `show_config` view: HTTP 200 with the JSON dump of the mapping. -/
def show_config (m : RedirectMap) : Response :=
  Response.content 200 (jsonDumps m)

/-- Dispatch of a `GET /go/{path}` request through Flask's URL map: the
literal rule `/go/👀` (no converter arguments) outranks the dynamic rule
`/go/<string:path>` in Werkzeug's rule ordering, so the path `👀` is always
answered by `show_config` and every other path by `go`. -/
def handleGoRoute (m : RedirectMap) (path : String) : Response :=
  if path = "👀" then show_config m else go m path

/-- The config line appended by `save`: `f"{shortcut}:{url}\n"`. -/
def saveLine (shortcut url : String) : List Char :=
  shortcut.toList ++ ':' :: (url.toList ++ ['\n'])

/-- The `abort(400, ...)` description used by `save` (werkzeug serves it
inside its standard HTML error page; the response is modelled by its status
and this description). -/
def missingParamsMsg : String :=
  "Missing required parameters 'p' (shortcut) or 'u' (url)"

/-- Full server state: the in-memory map and the config file contents. -/
structure AppState where
  redirect_map : RedirectMap
  config : List Char
deriving DecidableEq

/-- The `save` view on the normal path (the file append succeeds):
`request.args.get` yields `none` for an absent parameter; `not all([shortcut,
url])` is true when either is `None` or the empty string, in which case
`abort(400, ...)` fires before any mutation.  Otherwise the dict is updated
and `shortcut:url\n` is appended to the config file, and the body `👍` is
returned with status 200. -/
def save (st : AppState) (p u : Option String) : AppState × Response :=
  match p, u with
  | some shortcut, some url =>
    if shortcut = "" ∨ url = "" then
      (st, Response.content 400 missingParamsMsg)
    else
      ({ redirect_map := dictSet st.redirect_map shortcut url,
         config := st.config ++ saveLine shortcut url },
       Response.content 200 "👍")
  | _, _ => (st, Response.content 400 missingParamsMsg)

/-- Outcome of a `save` request when the file append may fail: success with a
body, a 400 validation failure, or a propagated I/O exception. -/
inductive SaveOutcome where
  | success (body : String)
  | invalidArg (message : String)
  | ioError
deriving DecidableEq

/-- `save` with the possibility that opening/writing the config file raises:
the dict assignment on the line before the `with` block has already happened,
so on a failed append the in-memory map is updated, the file is not, and the
exception propagates instead of the `👍` body. -/
def saveOrRaise (st : AppState) (p u : Option String) (appendOk : Bool) :
    AppState × SaveOutcome :=
  match p, u with
  | some shortcut, some url =>
    if shortcut = "" ∨ url = "" then
      (st, SaveOutcome.invalidArg missingParamsMsg)
    else
      if appendOk then
        ({ redirect_map := dictSet st.redirect_map shortcut url,
           config := st.config ++ saveLine shortcut url },
         SaveOutcome.success "👍")
      else
        ({ st with redirect_map := dictSet st.redirect_map shortcut url },
         SaveOutcome.ioError)
  | _, _ => (st, SaveOutcome.invalidArg missingParamsMsg)

/-- A request against the running service: a `GET /go/{path}` (which covers
both resolve and the `👀` dump) or a `GET /save?p=&u=` with optional
parameters. -/
inductive Op where
  | goReq (path : String)
  | saveReq (p u : Option String)

/-- Execute one request against the state. -/
def execOp (st : AppState) (op : Op) : AppState × Response :=
  match op with
  | Op.goReq path => (st, handleGoRoute st.redirect_map path)
  | Op.saveReq p u => save st p u

/-- Execute a sequence of requests, keeping only the final state. -/
def execOps (st : AppState) (ops : List Op) : AppState :=
  ops.foldl (fun s op => (execOp s op).1) st

/-- Startup (`startup` / `load_config`): the map starts empty and the
existing config file is replayed into it. -/
def initState (log0 : List Char) : AppState :=
  { redirect_map := load_config [] log0, config := log0 }

/-- The `(shortcut, url)` pairs of the save requests in `ops` that pass
validation and therefore mutate the store. -/
def completedSaves (ops : List Op) : List (String × String) :=
  ops.filterMap (fun op =>
    match op with
    | Op.saveReq (some p) (some u) => if p = "" ∨ u = "" then none else some (p, u)
    | _ => none)

/-- The parseable `(key, value)` entries of a config file, in file order. -/
def parsedEntries (contents : List Char) : List (String × String) :=
  (pyLines contents).filterMap parseLine

/-- Whether a response is a redirect (used to state that the dump route never
redirects). -/
def isRedirect : Response → Bool
  | Response.redirectTo _ _ => true
  | Response.content _ _ => false

/-! ### Dictionary lemmas -/

theorem dictGet_dictSet_self (d : RedirectMap) (k v : String) :
    dictGet (dictSet d k v) k = some v := by
  induction d with
  | nil => simp [dictSet, dictGet]
  | cons p rest ih =>
    by_cases hp : p.1 = k
    · simp [dictSet, dictGet, hp]
    · simp [dictSet, dictGet, hp, ih]

theorem dictGet_dictSet_ne (d : RedirectMap) (k v k' : String) (hne : k' ≠ k) :
    dictGet (dictSet d k v) k' = dictGet d k' := by
  induction d with
  | nil =>
    have hk : k ≠ k' := fun h => hne h.symm
    simp [dictSet, dictGet, hk]
  | cons p rest ih =>
    have hk : k ≠ k' := fun h => hne h.symm
    by_cases hp : p.1 = k
    · have hpk' : p.1 ≠ k' := fun h => hne (h.symm.trans hp)
      simp [dictSet, dictGet, hp, hpk', hk]
    · simp [dictSet, dictGet, hp, ih]

/-! ### Line-splitting lemmas -/

theorem splitOnNl_cons_nl (rest : List Char) :
    splitOnNl ('\n' :: rest) = [] :: splitOnNl rest := by
  conv_lhs => unfold splitOnNl
  rw [if_pos rfl]

theorem splitOnNl_ne_nil (cs : List Char) : splitOnNl cs ≠ [] := by
  cases cs with
  | nil => simp [splitOnNl]
  | cons c rest =>
    unfold splitOnNl
    by_cases hc : c = '\n'
    · simp [hc]
    · simp only [if_neg hc]
      rcases h : splitOnNl rest with _ | ⟨l, ls⟩ <;> simp

theorem splitOnNl_cons_of_ne (c : Char) (rest : List Char) (hc : c ≠ '\n')
    (l : List Char) (ls : List (List Char)) (h : splitOnNl rest = l :: ls) :
    splitOnNl (c :: rest) = (c :: l) :: ls := by
  unfold splitOnNl
  rw [if_neg hc, h]

theorem splitOnNl_append_nl (xs ys : List Char) :
    splitOnNl (xs ++ '\n' :: ys) = splitOnNl xs ++ splitOnNl ys := by
  induction xs with
  | nil => rw [List.nil_append, splitOnNl_cons_nl]; rfl
  | cons c xs ih =>
    by_cases hc : c = '\n'
    · subst hc
      rw [List.cons_append, splitOnNl_cons_nl, splitOnNl_cons_nl, ih, List.cons_append]
    · rcases h : splitOnNl xs with _ | ⟨l, ls⟩
      · exact absurd h (splitOnNl_ne_nil xs)
      · have h2 : splitOnNl (xs ++ '\n' :: ys) = l :: (ls ++ splitOnNl ys) := by
          rw [ih, h, List.cons_append]
        rw [List.cons_append, splitOnNl_cons_of_ne c _ hc _ _ h2,
          splitOnNl_cons_of_ne c _ hc _ _ h, List.cons_append]

theorem splitOnNl_no_nl (cs : List Char) (h : '\n' ∉ cs) : splitOnNl cs = [cs] := by
  induction cs with
  | nil => rfl
  | cons c rest ih =>
    have hc : c ≠ '\n' := fun hc => h (hc ▸ List.mem_cons_self c rest)
    have hrest : '\n' ∉ rest := fun hr => h (List.mem_cons_of_mem c hr)
    unfold splitOnNl
    rw [if_neg hc, ih hrest]

theorem univNL_no_cr (cs : List Char) (h : '\r' ∉ cs) : universalNewlines cs = cs := by
  induction cs with
  | nil => rfl
  | cons c rest ih =>
    have hc : c ≠ '\r' := fun hc => h (hc ▸ List.mem_cons_self c rest)
    have hrest : '\r' ∉ rest := fun hr => h (List.mem_cons_of_mem c hr)
    cases rest with
    | nil => simp [universalNewlines, hc]
    | cons c2 rest2 => simp only [universalNewlines, if_neg hc, ih hrest]

/-! ### Universal-newline lemmas -/

theorem univNL_cons_cons_cr_nl (rest : List Char) :
    universalNewlines ('\r' :: '\n' :: rest) = '\n' :: universalNewlines rest := by
  conv_lhs => unfold universalNewlines
  rw [if_pos rfl, if_pos rfl]

theorem univNL_cons_cons_cr (c2 : Char) (rest : List Char) (h : c2 ≠ '\n') :
    universalNewlines ('\r' :: c2 :: rest) = '\n' :: universalNewlines (c2 :: rest) := by
  conv_lhs => unfold universalNewlines
  rw [if_pos rfl, if_neg h]

theorem univNL_cons_cons (c1 c2 : Char) (rest : List Char) (h : c1 ≠ '\r') :
    universalNewlines (c1 :: c2 :: rest) = c1 :: universalNewlines (c2 :: rest) := by
  conv_lhs => unfold universalNewlines
  rw [if_neg h]

theorem univNL_append_nl : ∀ (xs ys : List Char),
    universalNewlines (xs ++ '\n' :: ys) =
      universalNewlines (xs ++ ['\n']) ++ universalNewlines ys
  | [], ys => by
    cases ys with
    | nil => rfl
    | cons y ys' => rfl
  | [c], ys => by
    by_cases hc : c = '\r'
    · subst hc
      cases ys with
      | nil => rfl
      | cons y ys' => rfl
    · have h1 : universalNewlines ([c] ++ '\n' :: ys) = c :: universalNewlines ('\n' :: ys) := by
        simp only [List.cons_append, List.nil_append]
        exact univNL_cons_cons c '\n' ys hc
      have h2 : universalNewlines ('\n' :: ys) = ['\n'] ++ universalNewlines ys := by
        cases ys <;> rfl
      have h3 : universalNewlines ([c] ++ ['\n']) = [c, '\n'] := by
        simp only [List.cons_append, List.nil_append]
        rw [univNL_cons_cons c '\n' [] hc]
        rfl
      rw [h1, h2, h3]
      rfl
  | c1 :: c2 :: xs, ys => by
    by_cases h1 : c1 = '\r'
    · subst h1
      by_cases h2 : c2 = '\n'
      · subst h2
        have hrec := univNL_append_nl xs ys
        simp only [List.cons_append] at hrec ⊢
        rw [univNL_cons_cons_cr_nl, univNL_cons_cons_cr_nl, hrec]
        rfl
      · have hrec := univNL_append_nl (c2 :: xs) ys
        simp only [List.cons_append] at hrec ⊢
        rw [univNL_cons_cons_cr c2 _ h2, univNL_cons_cons_cr c2 _ h2, hrec]
        rfl
    · have hrec := univNL_append_nl (c2 :: xs) ys
      simp only [List.cons_append] at hrec ⊢
      rw [univNL_cons_cons c1 c2 _ h1, univNL_cons_cons c1 c2 _ h1, hrec]
      rfl

theorem univNL_ends_nl : ∀ (zs : List Char),
    ∃ ws, universalNewlines (zs ++ ['\n']) = ws ++ ['\n']
  | [] => ⟨[], rfl⟩
  | [c] => by
    by_cases hc : c = '\r'
    · subst hc
      exact ⟨[], rfl⟩
    · refine ⟨[c], ?_⟩
      simp only [List.cons_append, List.nil_append]
      rw [univNL_cons_cons c '\n' [] hc]
      rfl
  | c1 :: c2 :: zs => by
    by_cases h1 : c1 = '\r'
    · subst h1
      by_cases h2 : c2 = '\n'
      · subst h2
        obtain ⟨ws, hws⟩ := univNL_ends_nl zs
        refine ⟨'\n' :: ws, ?_⟩
        simp only [List.cons_append] at hws ⊢
        rw [univNL_cons_cons_cr_nl, hws]
      · obtain ⟨ws, hws⟩ := univNL_ends_nl (c2 :: zs)
        refine ⟨'\n' :: ws, ?_⟩
        simp only [List.cons_append] at hws ⊢
        rw [univNL_cons_cons_cr c2 _ h2, hws]
    · obtain ⟨ws, hws⟩ := univNL_ends_nl (c2 :: zs)
      refine ⟨c1 :: ws, ?_⟩
      simp only [List.cons_append] at hws ⊢
      rw [univNL_cons_cons c1 c2 _ h1, hws]

/-! ### Colon-splitting lemmas -/

theorem splitFirstColon_none (cs : List Char) (h : ':' ∉ cs) :
    splitFirstColon cs = none := by
  induction cs with
  | nil => rfl
  | cons c rest ih =>
    have hc : c ≠ ':' := fun hc => h (hc ▸ List.mem_cons_self c rest)
    have hrest : ':' ∉ rest := fun hr => h (List.mem_cons_of_mem c hr)
    simp [splitFirstColon, hc, ih hrest]

theorem splitFirstColon_key (kcs vcs : List Char) (h : ':' ∉ kcs) :
    splitFirstColon (kcs ++ ':' :: vcs) = some (kcs, vcs) := by
  induction kcs with
  | nil => simp [splitFirstColon]
  | cons c rest ih =>
    have hc : c ≠ ':' := fun hc => h (hc ▸ List.mem_cons_self c rest)
    have hrest : ':' ∉ rest := fun hr => h (List.mem_cons_of_mem c hr)
    simp [splitFirstColon, hc, ih hrest]

/-! ### Stripping lemmas -/

theorem dropWhile_head_not {α : Type} (p : α → Bool) (l : List α) (c : α) (t : List α)
    (h : List.dropWhile p l = c :: t) : p c = false := by
  induction l with
  | nil => exact absurd h (by simp)
  | cons a rest ih =>
    by_cases ha : p a
    · rw [List.dropWhile_cons_of_pos ha] at h
      exact ih h
    · rw [List.dropWhile_cons_of_neg ha] at h
      injection h with h1 _
      subst h1
      simpa using ha

theorem exists_prefix_dropWhile {α : Type} (p : α → Bool) (l : List α) :
    ∃ t, t ++ List.dropWhile p l = l := by
  induction l with
  | nil => exact ⟨[], rfl⟩
  | cons a rest ih =>
    by_cases ha : p a
    · obtain ⟨t, ht⟩ := ih
      exact ⟨a :: t, by rw [List.dropWhile_cons_of_pos ha, List.cons_append, ht]⟩
    · exact ⟨[], by rw [List.dropWhile_cons_of_neg ha, List.nil_append]⟩

theorem dropWhile_dropWhile {α : Type} (p : α → Bool) (l : List α) :
    List.dropWhile p (List.dropWhile p l) = List.dropWhile p l := by
  induction l with
  | nil => rfl
  | cons a rest ih =>
    by_cases ha : p a
    · rw [List.dropWhile_cons_of_pos ha]
      exact ih
    · rw [List.dropWhile_cons_of_neg ha, List.dropWhile_cons_of_neg ha]

theorem dropWhile_pyStrip (l : List Char) :
    List.dropWhile isPySpace (pyStrip l) = pyStrip l := by
  unfold pyStrip
  rcases hx : (List.dropWhile isPySpace (List.dropWhile isPySpace l).reverse).reverse
    with _ | ⟨c, x'⟩
  · simp
  · obtain ⟨t, ht⟩ := exists_prefix_dropWhile isPySpace (List.dropWhile isPySpace l).reverse
    have hm : (List.dropWhile isPySpace (List.dropWhile isPySpace l).reverse).reverse ++ t.reverse
        = List.dropWhile isPySpace l := by
      rw [← List.reverse_append, ht, List.reverse_reverse]
    rw [hx] at hm
    have hc : isPySpace c = false := by
      apply dropWhile_head_not isPySpace l c (x' ++ t.reverse)
      rw [← hm, List.cons_append]
    rw [List.dropWhile_cons_of_neg (by simp [hc])]

theorem pyStrip_idem (cs : List Char) : pyStrip (pyStrip cs) = pyStrip cs := by
  have h2 : (pyStrip cs).reverse
      = List.dropWhile isPySpace (List.dropWhile isPySpace cs).reverse := by
    unfold pyStrip
    rw [List.reverse_reverse]
  calc pyStrip (pyStrip cs)
      = (((pyStrip cs).dropWhile isPySpace).reverse.dropWhile isPySpace).reverse := rfl
    _ = ((pyStrip cs).reverse.dropWhile isPySpace).reverse := by rw [dropWhile_pyStrip]
    _ = ((List.dropWhile isPySpace
          (List.dropWhile isPySpace cs).reverse).dropWhile isPySpace).reverse := by rw [h2]
    _ = (List.dropWhile isPySpace (List.dropWhile isPySpace cs).reverse).reverse := by
          rw [dropWhile_dropWhile]
    _ = pyStrip cs := rfl

theorem mem_pyStrip (c : Char) (cs : List Char) (h : c ∈ pyStrip cs) : c ∈ cs := by
  unfold pyStrip at h
  rw [List.mem_reverse] at h
  have h1 := List.dropWhile_subset isPySpace h
  rw [List.mem_reverse] at h1
  exact List.dropWhile_subset isPySpace h1

/-! ### Parse-line lemmas -/

theorem parseLine_no_colon (line : List Char) (h : ':' ∉ line) : parseLine line = none := by
  have hsub : ':' ∉ pyStrip line := fun hm => h (mem_pyStrip ':' line hm)
  unfold parseLine
  rw [splitFirstColon_none _ hsub]

theorem parseLine_pyStrip (line : List Char) : parseLine (pyStrip line) = parseLine line := by
  unfold parseLine
  rw [pyStrip_idem]

theorem parseLine_chunk (kcs vcs : List Char) (hk : ':' ∉ kcs)
    (hs : pyStrip (kcs ++ ':' :: vcs) = kcs ++ ':' :: vcs) :
    parseLine (kcs ++ ':' :: vcs) = some (⟨kcs⟩, ⟨vcs⟩) := by
  unfold parseLine
  rw [hs, splitFirstColon_key kcs vcs hk]

/-! ### Replay as a fold over parsed entries -/

theorem stepLine_nil (d : RedirectMap) : stepLine d [] = d := rfl

theorem foldl_stepLine_filterMap (lines : List (List Char)) (d : RedirectMap) :
    lines.foldl stepLine d =
      (lines.filterMap parseLine).foldl (fun m kv => dictSet m kv.1 kv.2) d := by
  induction lines generalizing d with
  | nil => rfl
  | cons l ls ih =>
    rcases h : parseLine l with _ | kv
    · rw [List.foldl_cons, List.filterMap_cons_none h, ih]
      congr 1
      simp [stepLine, h]
    · rw [List.foldl_cons, List.filterMap_cons_some h, List.foldl_cons, ih]
      congr 1
      simp [stepLine, h]

theorem load_config_eq_entries (d : RedirectMap) (cs : List Char) :
    load_config d cs =
      (parsedEntries cs).foldl (fun m kv => dictSet m kv.1 kv.2) d := by
  unfold load_config parsedEntries
  exact foldl_stepLine_filterMap _ d

theorem find?_eq_head?_filter {α : Type} (p : α → Bool) (l : List α) :
    l.find? p = (l.filter p).head? := by
  induction l with
  | nil => rfl
  | cons a rest ih =>
    by_cases ha : p a
    · rw [List.find?_cons_of_pos _ ha, List.filter_cons_of_pos ha]
      rfl
    · rw [List.find?_cons_of_neg _ ha, List.filter_cons_of_neg ha, ih]

theorem getLast?_filter_eq_find?_reverse {α : Type} (p : α → Bool) (l : List α) :
    (l.filter p).getLast? = l.reverse.find? p := by
  rw [List.getLast?_eq_head?_reverse, ← List.filter_reverse, ← find?_eq_head?_filter]

theorem dictGet_foldl_dictSet (es : List (String × String)) (d : RedirectMap) (k : String) :
    dictGet (es.foldl (fun m kv => dictSet m kv.1 kv.2) d) k =
      match es.reverse.find? (fun e => e.1 == k) with
      | some e => some e.2
      | none => dictGet d k := by
  induction es generalizing d with
  | nil => rfl
  | cons e rest ih =>
    rw [List.foldl_cons, ih, List.reverse_cons, List.find?_append]
    rcases h : rest.reverse.find? (fun e => e.1 == k) with _ | e'
    · rw [h]
      simp only [Option.none_or]
      by_cases he : e.1 = k
      · rw [List.find?_cons_of_pos _ (by simpa using he)]
        subst he
        simp [dictGet_dictSet_self]
      · rw [List.find?_cons_of_neg _ (by simpa using he), List.find?_nil]
        simp [dictGet_dictSet_ne _ _ _ _ (fun hh => he hh.symm)]
    · rw [h]
      simp

/-! ### Appending one well-formed line to a newline-terminated log -/

theorem load_config_append_line (d : RedirectMap) (cfg chunk : List Char)
    (hc : cfg = [] ∨ ∃ zs, cfg = zs ++ ['\n'])
    (hnl : '\n' ∉ chunk) (hcr : '\r' ∉ chunk) :
    load_config d (cfg ++ (chunk ++ ['\n'])) = stepLine (load_config d cfg) chunk := by
  have hchunknl : universalNewlines (chunk ++ ['\n']) = chunk ++ ['\n'] := by
    apply univNL_no_cr
    intro hm
    rcases List.mem_append.1 hm with h | h
    · exact hcr h
    · simp at h
  have hsplitchunk : splitOnNl (chunk ++ ['\n']) = [chunk, []] := by
    rw [show chunk ++ ['\n'] = chunk ++ '\n' :: [] from rfl,
      splitOnNl_append_nl, splitOnNl_no_nl chunk hnl]
    rfl
  rcases hc with hce | ⟨zs, hzs⟩
  · subst hce
    rw [List.nil_append]
    unfold load_config pyLines
    rw [hchunknl, hsplitchunk]
    rfl
  · subst hzs
    obtain ⟨ws, hws⟩ := univNL_ends_nl zs
    unfold load_config pyLines
    rw [List.append_assoc, List.singleton_append,
      univNL_append_nl zs (chunk ++ ['\n']), hws, hchunknl,
      List.append_assoc, List.singleton_append,
      splitOnNl_append_nl ws (chunk ++ ['\n']), hsplitchunk,
      splitOnNl_append_nl ws [], List.foldl_append, List.foldl_append]
    rfl

/-! ### The request-level state machine -/

theorem execOps_cons (st : AppState) (op : Op) (rest : List Op) :
    execOps st (op :: rest) = execOps (execOp st op).1 rest := rfl

theorem execOp_goReq_fst (st : AppState) (path : String) :
    (execOp st (Op.goReq path)).1 = st := rfl

theorem execOps_redirect_map (ops : List Op) (st : AppState) :
    (execOps st ops).redirect_map =
      (completedSaves ops).foldl (fun m kv => dictSet m kv.1 kv.2) st.redirect_map := by
  induction ops generalizing st with
  | nil => rfl
  | cons op rest ih =>
    rw [execOps_cons]
    cases op with
    | goReq path =>
      rw [execOp_goReq_fst, ih]
      rfl
    | saveReq p u =>
      cases p with
      | none =>
        rw [show (execOp st (Op.saveReq none u)).1 = st from rfl, ih]
        rfl
      | some k =>
        cases u with
        | none =>
          rw [show (execOp st (Op.saveReq (some k) none)).1 = st from rfl, ih]
          rfl
        | some v =>
          by_cases hkv : k = "" ∨ v = ""
          · have h1 : (execOp st (Op.saveReq (some k) (some v))).1 = st := by
              simp [execOp, save, hkv]
            have h2 : completedSaves (Op.saveReq (some k) (some v) :: rest) =
                completedSaves rest := by
              simp [completedSaves, hkv]
            rw [h1, h2, ih]
          · have h1 : (execOp st (Op.saveReq (some k) (some v))).1 =
                { redirect_map := dictSet st.redirect_map k v,
                  config := st.config ++ saveLine k v } := by
              simp [execOp, save, hkv]
            have h2 : completedSaves (Op.saveReq (some k) (some v) :: rest) =
                (k, v) :: completedSaves rest := by
              simp [completedSaves, hkv]
            rw [h1, h2, ih, List.foldl_cons]

/-! ### Claim theorems -/

/-- C1: at every reachable state (startup followed by any sequence of
resolve/dump/save requests), the in-memory store equals the replay of the
startup log further updated, in order, by every save call that passed
validation; `GET /go/...` requests (resolve and dump) never change the
state. -/
theorem invariant_store_replay_plus_saves (log0 : List Char) (ops : List Op) :
    (execOps (initState log0) ops).redirect_map =
      (completedSaves ops).foldl (fun m kv => dictSet m kv.1 kv.2) (load_config [] log0)
    ∧ ∀ (st : AppState) (path : String), (execOp st (Op.goReq path)).1 = st := by
  constructor
  · rw [execOps_redirect_map]
    rfl
  · intro st path
    rfl

/-- C2 counterexample: `Save("x", "y.com ")` (value with a trailing space)
succeeds, both arguments are non-empty, yet after replaying the resulting log
into a fresh store the resolved redirect target is `https://y.com`, not
`https://y.com ` — replay strips the trailing whitespace the save wrote. -/
theorem save_restart_roundtrip_cex :
    (save ⟨[], []⟩ (some "x") (some "y.com ")).2 = Response.content 200 "👍" ∧
    "x" ≠ "" ∧ "y.com " ≠ "" ∧
    go (load_config [] (save ⟨[], []⟩ (some "x") (some "y.com ")).1.config) "x" ≠
      Response.redirectTo 302 ("https://" ++ "y.com ") := by
  refine ⟨rfl, ?_, ?_, ?_⟩ <;> decide

/-- C2 amended: the restart round-trip holds for non-empty keys and values
provided the key contains no `:`, neither contains a newline or carriage
return, the written line survives `strip()` unchanged (no leading/trailing
whitespace), and the existing log is empty or newline-terminated. -/
theorem save_restart_roundtrip (st : AppState) (k v : String)
    (hk : k ≠ "") (hv : v ≠ "")
    (hcolon : ':' ∉ k.toList)
    (hnl : '\n' ∉ k.toList ++ ':' :: v.toList)
    (hcr : '\r' ∉ k.toList ++ ':' :: v.toList)
    (hstrip : pyStrip (k.toList ++ ':' :: v.toList) = k.toList ++ ':' :: v.toList)
    (hcfg : st.config = [] ∨ ∃ zs, st.config = zs ++ ['\n']) :
    (save st (some k) (some v)).2 = Response.content 200 "👍" ∧
    go (load_config [] (save st (some k) (some v)).1.config) k =
      Response.redirectTo 302 ("https://" ++ v) := by
  have hsave : save st (some k) (some v) =
      ({ redirect_map := dictSet st.redirect_map k v,
         config := st.config ++ saveLine k v }, Response.content 200 "👍") := by
    simp [save, hk, hv]
  refine ⟨by rw [hsave], ?_⟩
  rw [hsave]
  show go (load_config [] (st.config ++ saveLine k v)) k =
    Response.redirectTo 302 ("https://" ++ v)
  have hchunk : saveLine k v = (k.toList ++ ':' :: v.toList) ++ ['\n'] := by
    unfold saveLine
    simp
  have hstep : stepLine (load_config [] st.config) (k.toList ++ ':' :: v.toList)
      = dictSet (load_config [] st.config) k v := by
    unfold stepLine
    rw [parseLine_chunk _ _ hcolon hstrip]
    rfl
  rw [hchunk, load_config_append_line [] st.config _ hcfg hnl hcr, hstep]
  unfold go
  rw [dictGet_dictSet_self]

/-- C2 amended, witnessed at `Save("x", "y.com")` on an empty log. -/
theorem save_restart_roundtrip_witness :
    (save ⟨[], []⟩ (some "x") (some "y.com")).2 = Response.content 200 "👍" ∧
    go (load_config [] (save ⟨[], []⟩ (some "x") (some "y.com")).1.config) "x" =
      Response.redirectTo 302 ("https://" ++ "y.com") :=
  save_restart_roundtrip ⟨[], []⟩ "x" "y.com" (by decide) (by decide) (by decide)
    (by decide) (by decide) (by decide) (Or.inl rfl)

/-- C3: evaluating the code at the failing input — an absent key — shows the
divergence: the served response is status 200 with body "URL not found", not
the claimed (and intended) 404 with that body, because the `not_found`
handler returns a bare string which Flask finalizes with the default status
200.  The repository's own `test_redirect_not_found` asserts status 404, so
the code contradicts its test; the found half of the claim is as stated: a
present key yields the 302 redirect to `https://` plus the stored value. -/
theorem resolve_absent_serves_200 :
    go [] "nonexistent" = Response.content 200 not_found ∧
    go [] "nonexistent" ≠ Response.content 404 "URL not found" ∧
    go [("gh", "github.com")] "gh" = Response.redirectTo 302 ("https://" ++ "github.com") := by
  refine ⟨?_, ?_, ?_⟩ <;> decide

/-- C4: a save with a missing or empty parameter returns 400 and leaves both
the store and the log untouched; with both parameters present and non-empty
it updates the store, appends the line, and returns the confirmation body. -/
theorem save_validation (st : AppState) (p u : Option String) :
    ((p = none ∨ p = some "" ∨ u = none ∨ u = some "") →
      save st p u = (st, Response.content 400 missingParamsMsg)) ∧
    (∀ k v, p = some k → u = some v → k ≠ "" → v ≠ "" →
      save st p u =
        ({ redirect_map := dictSet st.redirect_map k v,
           config := st.config ++ saveLine k v }, Response.content 200 "👍")) := by
  constructor
  · intro h
    rcases h with h | h | h | h
    · subst h
      cases u <;> rfl
    · subst h
      cases u with
      | none => rfl
      | some v => simp [save]
    · subst h
      cases p <;> rfl
    · subst h
      cases p with
      | none => rfl
      | some k => simp [save]
  · intro k v hp hu hk hv
    subst hp
    subst hu
    simp [save, hk, hv]

/-- C4 witnessed: empty `p` is rejected with the state unchanged; a valid
pair goes through. -/
theorem save_validation_witness :
    save ⟨[("a", "b")], ['x']⟩ (some "") (some "x.com") =
      (⟨[("a", "b")], ['x']⟩, Response.content 400 missingParamsMsg) ∧
    save ⟨[], []⟩ (some "gh") (some "github.com") =
      ({ redirect_map := dictSet [] "gh" "github.com",
         config := [] ++ saveLine "gh" "github.com" }, Response.content 200 "👍") :=
  ⟨(save_validation ⟨[("a", "b")], ['x']⟩ (some "") (some "x.com")).1 (Or.inr (Or.inl rfl)),
   (save_validation ⟨[], []⟩ (some "gh") (some "github.com")).2 "gh" "github.com" rfl rfl
     (by decide) (by decide)⟩

/-- C5: replay maps each key to the value of the last parseable line carrying
that key (file order); in particular `a:1\na:2\n` replays to exactly
`a ↦ "2"`. -/
theorem replay_last_write_wins (cs : List Char) (k : String) :
    dictGet (load_config [] cs) k =
      ((parsedEntries cs).filter (fun e => e.1 == k)).getLast?.map Prod.snd ∧
    load_config [] ("a:1\na:2\n".toList) = [("a", "2")] := by
  constructor
  · rw [load_config_eq_entries, dictGet_foldl_dictSet, getLast?_filter_eq_find?_reverse]
    rcases h : (parsedEntries cs).reverse.find? (fun e => e.1 == k) with _ | e
    · rw [h]
      rfl
    · rw [h]
      rfl
  · decide

/-- C6: a line without `:` parses to nothing and leaves the store unchanged
(replay continues); `a:1\nmalformed\nb:2\n` replays to exactly the two good
entries. -/
theorem malformed_lines_skipped (line : List Char) (d : RedirectMap) :
    (':' ∉ line → parseLine line = none ∧ stepLine d line = d) ∧
    load_config [] ("a:1\nmalformed\nb:2\n".toList) = [("a", "1"), ("b", "2")] := by
  constructor
  · intro h
    have hp := parseLine_no_colon line h
    exact ⟨hp, by simp [stepLine, hp]⟩
  · decide

/-- C6 witnessed on the line `malformed`. -/
theorem malformed_lines_skipped_witness :
    (parseLine "malformed".toList = none ∧
      stepLine [("a", "1")] "malformed".toList = [("a", "1")]) ∧
    load_config [] ("a:1\nmalformed\nb:2\n".toList) = [("a", "1"), ("b", "2")] :=
  ⟨(malformed_lines_skipped "malformed".toList [("a", "1")]).1 (by decide),
   (malformed_lines_skipped "malformed".toList [("a", "1")]).2⟩

/-- C7 counterexample: the parser strips more than the trailing newline —
`a:1 ` (trailing space) parses to value `1`, not `1 `, and ` a:1` (leading
space) parses to key `a`, so whitespace at either end of the line is
trimmed. -/
theorem parse_trims_whitespace_cex :
    parseLine "a:1 ".toList = some ("a", "1") ∧
    parseLine "a:1 ".toList ≠ some ("a", "1 ") ∧
    parseLine " a:1".toList = some ("a", "1") := by
  refine ⟨?_, ?_, ?_⟩ <;> decide

/-- C7 amended: replay parsing first strips leading and trailing whitespace
from the whole line (Python `str.strip()`), then splits at the first `:` only
— the value may itself contain `:` — with no further normalization. -/
theorem parse_splits_first_colon_after_strip (cs kcs vcs : List Char)
    (hk : ':' ∉ kcs)
    (hs : pyStrip (kcs ++ ':' :: vcs) = kcs ++ ':' :: vcs) :
    parseLine (kcs ++ ':' :: vcs) = some (⟨kcs⟩, ⟨vcs⟩) ∧
    parseLine (pyStrip cs) = parseLine cs :=
  ⟨parseLine_chunk kcs vcs hk hs, parseLine_pyStrip cs⟩

/-- C7 amended, witnessed on `a:b:c` (value keeps its own `:`) and a padded
line. -/
theorem parse_splits_first_colon_after_strip_witness :
    parseLine ("a".toList ++ ':' :: "b:c".toList) = some (⟨"a".toList⟩, ⟨"b:c".toList⟩) ∧
    parseLine (pyStrip "  a:1 ".toList) = parseLine "  a:1 ".toList :=
  parse_splits_first_colon_after_strip "  a:1 ".toList "a".toList "b:c".toList
    (by decide) (by decide)

/-- C8: a save only reports the confirmation payload when the log append
completed; success implies the append flag was set and the config file holds
the new line, so a failed append (which propagates as an exception) is never
reported as success with the store updated and the log not. -/
theorem save_append_failure_surfaced (st : AppState) (p u : Option String)
    (appendOk : Bool) (b : String)
    (h : (saveOrRaise st p u appendOk).2 = SaveOutcome.success b) :
    appendOk = true ∧
    ∃ k v, p = some k ∧ u = some v ∧ k ≠ "" ∧ v ≠ "" ∧
      (saveOrRaise st p u appendOk).1 =
        { redirect_map := dictSet st.redirect_map k v,
          config := st.config ++ saveLine k v } := by
  cases p with
  | none => simp [saveOrRaise] at h
  | some k =>
    cases u with
    | none => simp [saveOrRaise] at h
    | some v =>
      by_cases hkv : k = "" ∨ v = ""
      · simp [saveOrRaise, hkv] at h
      · have hki : k ≠ "" := fun h0 => hkv (Or.inl h0)
        have hvi : v ≠ "" := fun h0 => hkv (Or.inr h0)
        cases appendOk with
        | false => simp [saveOrRaise, hkv] at h
        | true => exact ⟨rfl, k, v, rfl, rfl, hki, hvi, by simp [saveOrRaise, hkv]⟩

/-- C8 witnessed at a successful save. -/
theorem save_append_failure_surfaced_witness :
    true = true ∧
    ∃ k v, (some "gh" : Option String) = some k ∧ (some "github.com" : Option String) = some v ∧
      k ≠ "" ∧ v ≠ "" ∧
      (saveOrRaise ⟨[], []⟩ (some "gh") (some "github.com") true).1 =
        { redirect_map := dictSet [] k v,
          config := ([] : List Char) ++ saveLine k v } :=
  by
    exact save_append_failure_surfaced ⟨[], []⟩ (some "gh") (some "github.com") true "👍"
      (by decide)

/-- C9: the path `👀` is always answered by the JSON dump with HTTP 200 and
never by a redirect, even when the store holds an entry for `👀`. -/
theorem eyes_path_always_dump (m : RedirectMap) (v : String)
    (_h : dictGet m "👀" = some v) :
    handleGoRoute m "👀" = Response.content 200 (jsonDumps m) ∧
    isRedirect (handleGoRoute m "👀") = false := by
  have hroute : handleGoRoute m "👀" = show_config m := by
    unfold handleGoRoute
    rw [if_pos rfl]
  exact ⟨hroute, by rw [hroute]; rfl⟩

/-- C9 witnessed on a store that maps `👀` itself. -/
theorem eyes_path_always_dump_witness :
    handleGoRoute [("👀", "x.com")] "👀" =
      Response.content 200 (jsonDumps [("👀", "x.com")]) ∧
    isRedirect (handleGoRoute [("👀", "x.com")] "👀") = false :=
  eyes_path_always_dump [("👀", "x.com")] "x.com" (by decide)

/-- C10: replay loads entries that save would reject — `k:` yields key `k`
with empty value, `:v` yields the empty key — and resolving such a key
redirects to the bare `https://`; save itself rejects the empty key and the
empty value with 400 and no state change. -/
theorem replay_admits_empty_key_and_value :
    load_config [] ("k:\n".toList) = [("k", "")] ∧
    load_config [] (":v\n".toList) = [("", "v")] ∧
    go (load_config [] ("k:\n".toList)) "k" = Response.redirectTo 302 "https://" ∧
    save ⟨[], []⟩ (some "k") (some "") = (⟨[], []⟩, Response.content 400 missingParamsMsg) ∧
    save ⟨[], []⟩ (some "") (some "v") = (⟨[], []⟩, Response.content 400 missingParamsMsg) := by
  refine ⟨?_, ?_, ?_, ?_, ?_⟩ <;> decide
